import Mathlib

/-!
Shallow embedding of `src/index.ts`: an async retry utility with exponential
backoff and an optional per-attempt timeout.

A promise is modelled as a value that settles at a rational time (or never)
with an outcome.  `withTimeout` races such a promise against a timer, exactly
as `Promise.race([p, new Promise((_, rej) => setTimeout(() => rej(new Error('timeout')), ms))])`
does, also recording how many timers the race creates and clears.  The retry
loop is modelled as a function returning the final result together with an
observable trace: how often the operation factory was invoked, the `onRetry`
calls made (error and 1-based attempt number, in order), and the backoff
sleeps performed.
-/

/-- A settled outcome of an attempt: resolved with a value of type `α` or
rejected with an error of type `ε`. -/
inductive Outcome (ε α : Type) where
  | ok : α → Outcome ε α
  | err : ε → Outcome ε α
deriving DecidableEq

/-- An error value as thrown by the TypeScript source: either an arbitrary
caller-supplied rejection value, or a `new Error(message)` object identified
by its message string (the source only ever constructs
`new Error('timeout')` and `new Error('retry failed')`). -/
inductive ErrVal (ε : Type) where
  | user : ε → ErrVal ε
  | errorMsg : String → ErrVal ε
deriving DecidableEq

/-- A promise, modelled by the time at which it settles (`none` = it never
settles) and the outcome it settles with. -/
structure TimedPromise (ε α : Type) where
  settleTime : Option ℚ
  result : Outcome (ErrVal ε) α
deriving DecidableEq

/-- Timer bookkeeping for one `withTimeout` race: how many timers
`setTimeout` created and how many `clearTimeout` cleared. -/
structure RaceTrace where
  timersCreated : ℕ
  timersCleared : ℕ
deriving DecidableEq

/-- `withTimeout(p, ms)` from `src/index.ts`, with timer bookkeeping.
`if (ms == null) return p;` — only a missing value skips the race.
Otherwise the promise races a timer that rejects with `new Error('timeout')`
after `ms`; whichever settles first wins (a promise settling no later than
the timer beats it).  The source contains no `clearTimeout`, so no timer is
ever cleared. -/
def withTimeoutT (p : TimedPromise ε α) (ms : Option ℚ) :
    TimedPromise ε α × RaceTrace :=
  match ms with
  | none => (p, ⟨0, 0⟩)
  | some t =>
    let timer : TimedPromise ε α := ⟨some t, .err (.errorMsg "timeout")⟩
    let winner : TimedPromise ε α :=
      match p.settleTime with
      | none => timer
      | some s => if s ≤ t then p else timer
    (winner, ⟨1, 0⟩)

/-- The raced promise produced by `withTimeout(p, ms)`. -/
def withTimeout (p : TimedPromise ε α) (ms : Option ℚ) : TimedPromise ε α :=
  (withTimeoutT p ms).1

/-- The outcome of the attempt with 0-based index `i`: the factory's fresh
promise raced through `withTimeout`. -/
def attemptOut (fn : ℕ → TimedPromise ε α) (timeoutMs : Option ℚ) (i : ℕ) :
    Outcome (ErrVal ε) α :=
  (withTimeout (fn i) timeoutMs).result

/-- The options object of `retry`, with every recognized field optional,
mirroring `opts?: { retries?; delayMs?; factor?; onRetry?; timeoutMs? }`.
The `onRetry` callback may itself throw: it returns `some e` when it throws
`e` and `none` when it returns normally. -/
structure Opts (ε : Type) where
  retries : Option Int := none
  delayMs : Option ℚ := none
  factor : Option ℚ := none
  onRetry : Option (ErrVal ε → ℕ → Option (ErrVal ε)) := none
  timeoutMs : Option ℚ := none

/-- Final result of a `retry` call: the resolved value or the rejection. -/
inductive RetryResult (ε α : Type) where
  | success : α → RetryResult ε α
  | failure : ErrVal ε → RetryResult ε α
deriving DecidableEq

/-- Observable trace of one `retry` call: its result, the number of
invocations of the operation factory, the `onRetry` invocations (error and
1-based attempt number, in call order), and the backoff sleeps in order. -/
structure Trace (ε α : Type) where
  result : RetryResult ε α
  fnCalls : ℕ
  onRetryCalls : List (ErrVal ε × ℕ)
  sleeps : List ℚ
deriving DecidableEq

/-- `onRetry?.(err, n)`: optional call of the callback; `some e` when the
callback is present and throws `e`, `none` otherwise. -/
def cbRun (onRetry : Option (ErrVal ε → ℕ → Option (ErrVal ε)))
    (e : ErrVal ε) (n : ℕ) : Option (ErrVal ε) :=
  match onRetry with
  | none => none
  | some cb => cb e n

/-- The `onRetry` invocations recorded by `onRetry?.(err, n)`: one call when
the callback is present, none otherwise. -/
def cbLog (onRetry : Option (ErrVal ε → ℕ → Option (ErrVal ε)))
    (e : ErrVal ε) (n : ℕ) : List (ErrVal ε × ℕ) :=
  match onRetry with
  | none => []
  | some _ => [(e, n)]

/-- The `while (attempt <= retries)` loop of `retry`, from loop entry with
current attempt index `attempt` and current `delay`.  The loop runs while
`attempt <= retries` and `attempt` grows by 1 per iteration, so the number
of remaining iterations is exactly `(retries + 1 - attempt).toNat`; `fuel`
carries that count so the recursion is structural (the caller `retry`
supplies the exact value, and the guard is also kept explicitly).  Each
iteration awaits `withTimeout(fn(), timeoutMs)`; on success it returns; on
failure it rethrows when `attempt === retries`, otherwise calls
`onRetry?.(err, attempt + 1)` (whose own throw propagates uncaught), sleeps
`delay`, sets `delay = Math.floor(delay * factor)`, increments `attempt`
and loops.  When the guard fails the function throws
`new Error('retry failed')`. -/
def retryAux (fn : ℕ → TimedPromise ε α)
    (onRetry : Option (ErrVal ε → ℕ → Option (ErrVal ε)))
    (timeoutMs : Option ℚ) (factor : ℚ) (retries : Int) :
    (fuel : ℕ) → (attempt : ℕ) → (delay : ℚ) → Trace ε α
  | 0, _, _ => ⟨.failure (.errorMsg "retry failed"), 0, [], []⟩
  | fuel + 1, attempt, delay =>
    if (attempt : Int) ≤ retries then
      match attemptOut fn timeoutMs attempt with
      | .ok v => ⟨.success v, 1, [], []⟩
      | .err e =>
        if (attempt : Int) = retries then ⟨.failure e, 1, [], []⟩
        else
          match cbRun onRetry e (attempt + 1) with
          | some e2 => ⟨.failure e2, 1, cbLog onRetry e (attempt + 1), []⟩
          | none =>
            let rest := retryAux fn onRetry timeoutMs factor retries
              fuel (attempt + 1) ((⌊delay * factor⌋ : Int) : ℚ)
            ⟨rest.result, rest.fnCalls + 1,
              cbLog onRetry e (attempt + 1) ++ rest.onRetryCalls,
              delay :: rest.sleeps⟩
    else ⟨.failure (.errorMsg "retry failed"), 0, [], []⟩

/-- `retry(fn, opts)` from `src/index.ts`: destructures
`const { retries = 3, delayMs = 100, factor = 2, onRetry, timeoutMs } = opts || {};`
and runs the attempt loop starting at `attempt = 0`, `delay = delayMs`,
with the exact iteration count of the `while` loop as fuel. -/
def retry (fn : ℕ → TimedPromise ε α) (opts : Option (Opts ε)) : Trace ε α :=
  let o := opts.getD {}
  retryAux fn o.onRetry o.timeoutMs (o.factor.getD 2) (o.retries.getD 3)
    (o.retries.getD 3 + 1).toNat 0 (o.delayMs.getD 100)

/-- The delay actually slept before the `(i+1)`-st retry: the initial delay
re-floored through `delay = Math.floor(delay * factor)` once per completed
retry. -/
def iterDelay (d f : ℚ) : ℕ → ℚ
  | 0 => d
  | n + 1 => iterDelay ((⌊d * f⌋ : Int) : ℚ) f n

/-- Modelled from the spec: the closed-form backoff delay the spec asserts
for the retry with 1-based index `i`, namely `floor(d0 * f^(i-1))` over the
original initial delay (this definition follows the spec's words and is
compared against the delays the code actually sleeps). -/
def specDelay (d0 f : ℚ) (i : ℕ) : Int := ⌊d0 * f ^ (i - 1)⌋

/-- An operation that always rejects with the caller error `7`, settling at
time 1. -/
def fnFail : ℕ → TimedPromise ℕ ℕ := fun _ => ⟨some 1, .err (.user 7)⟩

/-- An operation that always resolves with `5`, settling at time 10. -/
def fnOkLate : ℕ → TimedPromise ℕ ℕ := fun _ => ⟨some 10, .ok 5⟩

/-- An operation that rejects with `.user i` on its first two invocations
and resolves with `42` from the third on. -/
def fnFailTwice : ℕ → TimedPromise ℕ ℕ :=
  fun i => if i < 2 then ⟨some 1, .err (.user i)⟩ else ⟨some 1, .ok 42⟩

/-- Options used by the concrete always-failing scenarios: two retries, a
10ms initial delay, no callback, no timeout. -/
def optsA : Option (Opts ℕ) := some { retries := some 2, delayMs := some 10 }

/-- Options used by the fail-twice scenarios: `retries = 2`, a 10ms initial
delay, and a callback that always returns normally. -/
def optsB : Option (Opts ℕ) :=
  some { retries := some 2, delayMs := some 10, onRetry := some fun _ _ => none }

/-- A callback that throws `.user 99` when invoked with attempt number 1 and
returns normally otherwise. -/
def cbThrow : ErrVal ℕ → ℕ → Option (ErrVal ℕ) :=
  fun _ n => if n = 1 then some (.user 99) else none

/-- Options with `retries = 3` and the throwing callback `cbThrow`. -/
def optsThrow : Option (Opts ℕ) :=
  some { retries := some 3, delayMs := some 10, onRetry := some cbThrow }

/-- Options exhibiting the closed-form/iterated-floor discrepancy:
`retries = 3`, `delayMs = 5`, `factor = 11/10`. -/
def optsC3 : Option (Opts ℕ) :=
  some { retries := some 3, delayMs := some 5, factor := some (11 / 10) }

/-- Options with a negative retry count. -/
def optsNeg : Option (Opts ℕ) := some { retries := some (-1) }

/-- The `onRetry` invocations produced by `j` consecutive failed, non-final
attempts starting at attempt index `a`, failing with errors `E 0, …, E (j-1)`:
one call per failure when the callback is present, none otherwise. -/
def cbLogs (onRetry : Option (ErrVal ε → ℕ → Option (ErrVal ε)))
    (E : ℕ → ErrVal ε) (a j : ℕ) : List (ErrVal ε × ℕ) :=
  match onRetry with
  | none => []
  | some _ => (List.range j).map fun i => (E i, a + i + 1)

section StepLemmas

variable {ε α : Type}
variable (fn : ℕ → TimedPromise ε α)
variable (onRetry : Option (ErrVal ε → ℕ → Option (ErrVal ε)))
variable (timeoutMs : Option ℚ) (factor : ℚ) (retries : Int)

theorem cbLogs_zero (E : ℕ → ErrVal ε) (a : ℕ) : cbLogs onRetry E a 0 = [] := by
  cases onRetry <;> rfl

theorem cbLogs_succ (E : ℕ → ErrVal ε) (a j : ℕ) :
    cbLogs onRetry E a (j + 1) =
      cbLog onRetry (E 0) (a + 1) ++ cbLogs onRetry (fun i => E (i + 1)) (a + 1) j := by
  cases onRetry with
  | none => rfl
  | some cb =>
    show (List.range (j + 1)).map (fun i => (E i, a + i + 1)) = _
    rw [List.range_succ_eq_map, List.map_cons, List.map_map]
    refine congrArg₂ List.cons rfl ?_
    refine List.map_congr_left fun i _ => ?_
    simp [Function.comp, Prod.ext_iff]
    omega

theorem retryAux_step_ok (fuel a : ℕ) (d : ℚ) (v : α)
    (hle : (a : Int) ≤ retries)
    (hok : attemptOut fn timeoutMs a = .ok v) :
    retryAux fn onRetry timeoutMs factor retries (fuel + 1) a d =
      ⟨.success v, 1, [], []⟩ := by
  rw [retryAux, if_pos hle, hok]

theorem retryAux_step_final (fuel a : ℕ) (d : ℚ) (e : ErrVal ε)
    (heq : (a : Int) = retries)
    (herr : attemptOut fn timeoutMs a = .err e) :
    retryAux fn onRetry timeoutMs factor retries (fuel + 1) a d =
      ⟨.failure e, 1, [], []⟩ := by
  rw [retryAux, if_pos (le_of_eq heq), herr]
  simp [if_pos heq]

theorem retryAux_step_throw (fuel a : ℕ) (d : ℚ) (e e2 : ErrVal ε)
    (hlt : (a : Int) < retries)
    (herr : attemptOut fn timeoutMs a = .err e)
    (hcb : cbRun onRetry e (a + 1) = some e2) :
    retryAux fn onRetry timeoutMs factor retries (fuel + 1) a d =
      ⟨.failure e2, 1, cbLog onRetry e (a + 1), []⟩ := by
  rw [retryAux, if_pos hlt.le, herr]
  simp [if_neg hlt.ne, hcb]

theorem retryAux_step_cont (fuel a : ℕ) (d : ℚ) (e : ErrVal ε)
    (hlt : (a : Int) < retries)
    (herr : attemptOut fn timeoutMs a = .err e)
    (hcb : cbRun onRetry e (a + 1) = none) :
    retryAux fn onRetry timeoutMs factor retries (fuel + 1) a d =
      ⟨(retryAux fn onRetry timeoutMs factor retries fuel (a + 1)
          ((⌊d * factor⌋ : Int) : ℚ)).result,
        (retryAux fn onRetry timeoutMs factor retries fuel (a + 1)
          ((⌊d * factor⌋ : Int) : ℚ)).fnCalls + 1,
        cbLog onRetry e (a + 1) ++
          (retryAux fn onRetry timeoutMs factor retries fuel (a + 1)
            ((⌊d * factor⌋ : Int) : ℚ)).onRetryCalls,
        d :: (retryAux fn onRetry timeoutMs factor retries fuel (a + 1)
          ((⌊d * factor⌋ : Int) : ℚ)).sleeps⟩ := by
  rw [retryAux, if_pos hlt.le, herr]
  simp [if_neg hlt.ne, hcb]

/-- Unrolling `j` consecutive failed, non-final attempts: starting at attempt
`a` with delay `d`, if attempts `a, …, a + j - 1` all fail with errors
`E 0, …, E (j-1)`, none of them is the final allowed attempt, and the
callback returns normally on each, then the run makes those `j` attempts
(calling the callback and sleeping the iterated-floor delays) and continues
from attempt `a + j`. -/
theorem retryAux_steps (j : ℕ) :
    ∀ (E : ℕ → ErrVal ε) (a fuel : ℕ) (d : ℚ),
      ((a : Int) + j ≤ retries) →
      (∀ i, i < j → attemptOut fn timeoutMs (a + i) = .err (E i)) →
      (∀ i, i < j → cbRun onRetry (E i) (a + i + 1) = none) →
      retryAux fn onRetry timeoutMs factor retries (fuel + j) a d =
        ⟨(retryAux fn onRetry timeoutMs factor retries fuel (a + j)
            (iterDelay d factor j)).result,
          j + (retryAux fn onRetry timeoutMs factor retries fuel (a + j)
            (iterDelay d factor j)).fnCalls,
          cbLogs onRetry E a j ++
            (retryAux fn onRetry timeoutMs factor retries fuel (a + j)
              (iterDelay d factor j)).onRetryCalls,
          (List.range j).map (iterDelay d factor) ++
            (retryAux fn onRetry timeoutMs factor retries fuel (a + j)
              (iterDelay d factor j)).sleeps⟩ := by
  induction j with
  | zero =>
    intro E a fuel d ha hfail hcb
    simp [iterDelay, cbLogs_zero]
  | succ j ih =>
    intro E a fuel d ha hfail hcb
    have h0 : attemptOut fn timeoutMs a = .err (E 0) := by
      simpa using hfail 0 (Nat.succ_pos j)
    have hc0 : cbRun onRetry (E 0) (a + 1) = none := by
      simpa using hcb 0 (Nat.succ_pos j)
    have hlt : (a : Int) < retries := by omega
    have hfe : fuel + (j + 1) = (fuel + j) + 1 := rfl
    rw [hfe, retryAux_step_cont fn onRetry timeoutMs factor retries
      (fuel + j) a d (E 0) hlt h0 hc0]
    have hfail2 : ∀ i, i < j →
        attemptOut fn timeoutMs (a + 1 + i) = .err (E (i + 1)) := by
      intro i hi
      have h := hfail (i + 1) (by omega)
      rwa [show a + (i + 1) = a + 1 + i by omega] at h
    have hcb2 : ∀ i, i < j →
        cbRun onRetry (E (i + 1)) (a + 1 + i + 1) = none := by
      intro i hi
      have h := hcb (i + 1) (by omega)
      rwa [show a + (i + 1) + 1 = a + 1 + i + 1 by omega] at h
    rw [ih (fun i => E (i + 1)) (a + 1) fuel ((⌊d * factor⌋ : Int) : ℚ)
      (by omega) hfail2 hcb2]
    have hix : a + 1 + j = a + (j + 1) := by omega
    have hdelay : iterDelay ((⌊d * factor⌋ : Int) : ℚ) factor j =
        iterDelay d factor (j + 1) := rfl
    rw [hix, hdelay, cbLogs_succ]
    simp only [Trace.mk.injEq, List.cons_append, List.append_assoc,
      List.range_succ_eq_map, List.map_cons, List.map_map]
    refine ⟨trivial, by omega, trivial, ?_⟩
    refine congrArg₂ List.cons rfl ?_
    exact congrArg₂ List.append (List.map_congr_left fun i _ => rfl) rfl

/-- Every run whose callback never throws, started within the loop guard and
with enough fuel, ends on some attempt `k`: either that attempt succeeded
and its value is returned, or `k` is the final allowed attempt
(`k = retries`) and its error is the overall failure.  In both cases the
number of factory invocations is `k - a + 1`, so the result always comes
from an actual attempt and the defensive post-loop error is never
surfaced. -/
theorem retryAux_outcome (hcb : ∀ e n, cbRun onRetry e n = none) :
    ∀ (fuel a : ℕ) (d : ℚ), (a : Int) ≤ retries →
      (retries + 1 - a).toNat ≤ fuel →
      ∃ k : ℕ, a ≤ k ∧ (k : Int) ≤ retries ∧
        (retryAux fn onRetry timeoutMs factor retries fuel a d).fnCalls = k - a + 1 ∧
        ((∃ v, attemptOut fn timeoutMs k = .ok v ∧
            (retryAux fn onRetry timeoutMs factor retries fuel a d).result = .success v) ∨
         (∃ e, attemptOut fn timeoutMs k = .err e ∧
            (retryAux fn onRetry timeoutMs factor retries fuel a d).result = .failure e ∧
            (k : Int) = retries)) := by
  intro fuel
  induction fuel with
  | zero =>
    intro a d hle hf
    omega
  | succ fuel ih =>
    intro a d hle hf
    cases hout : attemptOut fn timeoutMs a with
    | ok v =>
      refine ⟨a, le_refl a, hle, ?_, Or.inl ⟨v, hout, ?_⟩⟩
      · rw [retryAux_step_ok fn onRetry timeoutMs factor retries fuel a d v hle hout]
        dsimp only
        omega
      · rw [retryAux_step_ok fn onRetry timeoutMs factor retries fuel a d v hle hout]
    | err e =>
      by_cases heq : (a : Int) = retries
      · refine ⟨a, le_refl a, hle, ?_, Or.inr ⟨e, hout, ?_, heq⟩⟩
        · rw [retryAux_step_final fn onRetry timeoutMs factor retries fuel a d e heq hout]
          dsimp only
          omega
        · rw [retryAux_step_final fn onRetry timeoutMs factor retries fuel a d e heq hout]
      · have hlt : (a : Int) < retries := lt_of_le_of_ne hle heq
        rw [retryAux_step_cont fn onRetry timeoutMs factor retries fuel a d e hlt hout
          (hcb e (a + 1))]
        obtain ⟨k, hk1, hk2, hk3, hk4⟩ :=
          ih (a + 1) ((⌊d * factor⌋ : Int) : ℚ) (by omega) (by omega)
        refine ⟨k, by omega, hk2, ?_, ?_⟩
        · dsimp only
          omega
        · dsimp only
          exact hk4

end StepLemmas

/-- `retry` with an effective retry count `r ≥ 0` runs the loop with exactly
`r + 1` iterations of fuel from attempt 0. -/
theorem retry_unfold {ε α : Type} (fn : ℕ → TimedPromise ε α)
    (opts : Option (Opts ε)) (r : ℕ)
    (hr : (opts.getD {}).retries.getD 3 = (r : Int)) :
    retry fn opts =
      retryAux fn (opts.getD {}).onRetry (opts.getD {}).timeoutMs
        ((opts.getD {}).factor.getD 2) (r : Int) (r + 1) 0
        ((opts.getD {}).delayMs.getD 100) := by
  simp only [retry, hr]
  rw [show ((r : Int) + 1).toNat = r + 1 by omega]

/-- A callback hypothesis on the options translates to `cbRun` never
throwing. -/
theorem cbRun_none_of_total {ε : Type}
    (onRetry : Option (ErrVal ε → ℕ → Option (ErrVal ε)))
    (hcb : ∀ cb, onRetry = some cb → ∀ e n, cb e n = none) :
    ∀ e n, cbRun onRetry e n = none := by
  intro e n
  cases h : onRetry with
  | none => rfl
  | some cb => exact hcb cb h e n

section PosFuel

variable {ε α : Type}
variable (fn : ℕ → TimedPromise ε α)
variable (onRetry : Option (ErrVal ε → ℕ → Option (ErrVal ε)))
variable (timeoutMs : Option ℚ) (factor : ℚ) (retries : Int)

theorem retryAux_ok_of_pos (fuel a : ℕ) (d : ℚ) (v : α)
    (hpos : 0 < fuel) (hle : (a : Int) ≤ retries)
    (hok : attemptOut fn timeoutMs a = .ok v) :
    retryAux fn onRetry timeoutMs factor retries fuel a d =
      ⟨.success v, 1, [], []⟩ := by
  obtain ⟨m, rfl⟩ : ∃ m, fuel = m + 1 := ⟨fuel - 1, by omega⟩
  exact retryAux_step_ok fn onRetry timeoutMs factor retries m a d v hle hok

theorem retryAux_final_of_pos (fuel a : ℕ) (d : ℚ) (e : ErrVal ε)
    (hpos : 0 < fuel) (heq : (a : Int) = retries)
    (herr : attemptOut fn timeoutMs a = .err e) :
    retryAux fn onRetry timeoutMs factor retries fuel a d =
      ⟨.failure e, 1, [], []⟩ := by
  obtain ⟨m, rfl⟩ : ∃ m, fuel = m + 1 := ⟨fuel - 1, by omega⟩
  exact retryAux_step_final fn onRetry timeoutMs factor retries m a d e heq herr

theorem retryAux_throw_of_pos (fuel a : ℕ) (d : ℚ) (e e2 : ErrVal ε)
    (hpos : 0 < fuel) (hlt : (a : Int) < retries)
    (herr : attemptOut fn timeoutMs a = .err e)
    (hcb : cbRun onRetry e (a + 1) = some e2) :
    retryAux fn onRetry timeoutMs factor retries fuel a d =
      ⟨.failure e2, 1, cbLog onRetry e (a + 1), []⟩ := by
  obtain ⟨m, rfl⟩ : ∃ m, fuel = m + 1 := ⟨fuel - 1, by omega⟩
  exact retryAux_step_throw fn onRetry timeoutMs factor retries m a d e e2 hlt herr hcb

end PosFuel

/-- Claim C1: for every effective `retries = r ≥ 0`, if the supplied
operation fails on every invocation, then `retry` invokes the operation
factory exactly `r + 1` times and the call rejects with exactly the error
of the last attempt, unmodified. -/
theorem retry_always_fail_count_and_error {ε α : Type}
    (fn : ℕ → TimedPromise ε α) (opts : Option (Opts ε)) (r : ℕ)
    (E : ℕ → ErrVal ε)
    (hr : (opts.getD {}).retries.getD 3 = (r : Int))
    (hfail : ∀ i, attemptOut fn (opts.getD {}).timeoutMs i = .err (E i))
    (hcb : ∀ cb, (opts.getD {}).onRetry = some cb → ∀ e n, cb e n = none) :
    (retry fn opts).fnCalls = r + 1 ∧
      (retry fn opts).result = .failure (E r) := by
  have hcb2 := cbRun_none_of_total _ hcb
  rw [retry_unfold fn opts r hr, show r + 1 = 1 + r from Nat.add_comm r 1,
    retryAux_steps fn ((opts.getD {}).onRetry) ((opts.getD {}).timeoutMs)
      ((opts.getD {}).factor.getD 2) ((r : ℕ) : Int) r E 0 1
      ((opts.getD {}).delayMs.getD 100) (by omega)
      (fun i _ => by rw [Nat.zero_add]; exact hfail i)
      (fun i _ => hcb2 (E i) (0 + i + 1))]
  rw [Nat.zero_add,
    retryAux_final_of_pos fn ((opts.getD {}).onRetry) ((opts.getD {}).timeoutMs)
      ((opts.getD {}).factor.getD 2) ((r : ℕ) : Int) 1 r
      (iterDelay ((opts.getD {}).delayMs.getD 100) ((opts.getD {}).factor.getD 2) r)
      (E r) (by omega) rfl (hfail r)]
  constructor
  · dsimp only
    omega
  · dsimp only

/-- Witness for claim C1: with `retries = 2` and an operation that always
rejects with `.user 7`, the factory is invoked 3 times and the call rejects
with `.user 7`. -/
theorem retry_always_fail_count_and_error_witness :
    (retry fnFail optsA).fnCalls = 3 ∧
      (retry fnFail optsA).result = .failure (.user 7) :=
  retry_always_fail_count_and_error fnFail optsA 2 (fun _ => .user 7) rfl
    (fun _ => rfl) (fun cb h => by cases h)

/-- Claim C2: for every effective `retries = r` and an operation that fails
on its first `k ≤ r` invocations and succeeds on invocation `k + 1`,
`retry` returns the success value after exactly `k + 1` factory
invocations, and — when a callback is configured — `onRetry` is called
exactly `k` times, the `i`-th call (1-based) receiving the `i`-th failure's
error and the attempt number `i`, in order. -/
theorem retry_fail_then_succeed {ε α : Type}
    (fn : ℕ → TimedPromise ε α) (opts : Option (Opts ε)) (r k : ℕ)
    (hk : k ≤ r) (v : α) (E : ℕ → ErrVal ε)
    (hr : (opts.getD {}).retries.getD 3 = (r : Int))
    (hfail : ∀ i, i < k → attemptOut fn (opts.getD {}).timeoutMs i = .err (E i))
    (hok : attemptOut fn (opts.getD {}).timeoutMs k = .ok v)
    (hcb : ∀ cb, (opts.getD {}).onRetry = some cb → ∀ e n, cb e n = none) :
    (retry fn opts).result = .success v ∧
      (retry fn opts).fnCalls = k + 1 ∧
      (∀ cb, (opts.getD {}).onRetry = some cb →
        (retry fn opts).onRetryCalls = (List.range k).map fun i => (E i, i + 1)) := by
  have hcb2 := cbRun_none_of_total _ hcb
  rw [retry_unfold fn opts r hr, show r + 1 = (r + 1 - k) + k by omega,
    retryAux_steps fn ((opts.getD {}).onRetry) ((opts.getD {}).timeoutMs)
      ((opts.getD {}).factor.getD 2) ((r : ℕ) : Int) k E 0 (r + 1 - k)
      ((opts.getD {}).delayMs.getD 100) (by omega)
      (fun i hi => by rw [Nat.zero_add]; exact hfail i hi)
      (fun i _ => hcb2 (E i) (0 + i + 1))]
  rw [Nat.zero_add,
    retryAux_ok_of_pos fn ((opts.getD {}).onRetry) ((opts.getD {}).timeoutMs)
      ((opts.getD {}).factor.getD 2) ((r : ℕ) : Int) (r + 1 - k) k
      (iterDelay ((opts.getD {}).delayMs.getD 100) ((opts.getD {}).factor.getD 2) k)
      v (by omega) (by omega) hok]
  refine ⟨by dsimp only, by dsimp only, ?_⟩
  intro cb hsome
  dsimp only
  rw [hsome]
  simp [cbLogs, Nat.zero_add]

/-- Witness for claim C2: with `retries = 2` and an operation failing twice
with `.user 0`, `.user 1` then succeeding with `42`, `retry` returns `42`
after 3 invocations and the callback sees `(.user 0, 1)` then
`(.user 1, 2)`. -/
theorem retry_fail_then_succeed_witness :
    (retry fnFailTwice optsB).result = .success 42 ∧
      (retry fnFailTwice optsB).fnCalls = 3 ∧
      (retry fnFailTwice optsB).onRetryCalls = [(.user 0, 1), (.user 1, 2)] := by
  obtain ⟨h1, h2, h3⟩ := retry_fail_then_succeed fnFailTwice optsB 2 2
    (by omega) 42 (fun i => .user i) rfl (by decide) rfl
    (fun cb h => by cases h; exact fun e n => rfl)
  refine ⟨h1, h2, ?_⟩
  rw [h3 _ rfl]
  decide

/-- Claim C3 (amended): the backoff delays actually slept are the
iteratively re-floored products — `d 1 = delayMs` and
`d (i+1) = Math.floor(d i * factor)` — not the closed form over the
original initial delay.  Stated for a full failing run: the sleeps are
exactly `iterDelay d0 f 0, …, iterDelay d0 f (r-1)`. -/
theorem backoff_iterated_floor_sleeps {ε α : Type}
    (fn : ℕ → TimedPromise ε α) (opts : Option (Opts ε)) (r : ℕ)
    (d0 f : ℚ) (E : ℕ → ErrVal ε)
    (hr : (opts.getD {}).retries.getD 3 = (r : Int))
    (hd : (opts.getD {}).delayMs.getD 100 = d0)
    (hf2 : (opts.getD {}).factor.getD 2 = f)
    (hfail : ∀ i, attemptOut fn (opts.getD {}).timeoutMs i = .err (E i))
    (hcb : ∀ cb, (opts.getD {}).onRetry = some cb → ∀ e n, cb e n = none) :
    (retry fn opts).sleeps = (List.range r).map (iterDelay d0 f) := by
  have hcb2 := cbRun_none_of_total _ hcb
  rw [retry_unfold fn opts r hr, show r + 1 = 1 + r from Nat.add_comm r 1,
    retryAux_steps fn ((opts.getD {}).onRetry) ((opts.getD {}).timeoutMs)
      ((opts.getD {}).factor.getD 2) ((r : ℕ) : Int) r E 0 1
      ((opts.getD {}).delayMs.getD 100) (by omega)
      (fun i _ => by rw [Nat.zero_add]; exact hfail i)
      (fun i _ => hcb2 (E i) (0 + i + 1))]
  rw [Nat.zero_add,
    retryAux_final_of_pos fn ((opts.getD {}).onRetry) ((opts.getD {}).timeoutMs)
      ((opts.getD {}).factor.getD 2) ((r : ℕ) : Int) 1 r
      (iterDelay ((opts.getD {}).delayMs.getD 100) ((opts.getD {}).factor.getD 2) r)
      (E r) (by omega) rfl (hfail r)]
  dsimp only
  rw [hd, hf2, List.append_nil]

/-- Witness for claim C3 (amended): with `retries = 2`, `delayMs = 10`,
`factor = 2`, an always-failing run sleeps the iterated-floor delays, which
evaluate to `[10, 20]`. -/
theorem backoff_iterated_floor_sleeps_witness :
    (retry fnFail optsA).sleeps = (List.range 2).map (iterDelay 10 2) ∧
      (List.range 2).map (iterDelay 10 2) = [10, 20] :=
  ⟨backoff_iterated_floor_sleeps fnFail optsA 2 10 2 (fun _ => .user 7) rfl rfl
      rfl (fun _ => rfl) (fun cb h => by cases h),
    by with_unfolding_all decide⟩

/-- Claim C6: when the configured `onRetry` callback throws on the failure
of a non-final attempt `k` (0-based, `k < retries`), its error is not
caught: the call rejects with the callback's error, the factory is not
invoked again (`k + 1` invocations in total), no backoff sleep happens
after the throwing call (`k` sleeps in total), and the callback was invoked
exactly `k + 1` times. -/
theorem onRetry_throw_propagates {ε α : Type}
    (fn : ℕ → TimedPromise ε α) (opts : Option (Opts ε)) (r k : ℕ)
    (hk : k < r) (cb : ErrVal ε → ℕ → Option (ErrVal ε))
    (E : ℕ → ErrVal ε) (e2 : ErrVal ε)
    (hr : (opts.getD {}).retries.getD 3 = (r : Int))
    (hsome : (opts.getD {}).onRetry = some cb)
    (hfail : ∀ i, i ≤ k → attemptOut fn (opts.getD {}).timeoutMs i = .err (E i))
    (hcbok : ∀ i, i < k → cb (E i) (i + 1) = none)
    (hthrow : cb (E k) (k + 1) = some e2) :
    (retry fn opts).result = .failure e2 ∧
      (retry fn opts).fnCalls = k + 1 ∧
      (retry fn opts).sleeps.length = k ∧
      (retry fn opts).onRetryCalls = (List.range (k + 1)).map fun i => (E i, i + 1) := by
  rw [retry_unfold fn opts r hr, show r + 1 = (r + 1 - k) + k by omega,
    retryAux_steps fn ((opts.getD {}).onRetry) ((opts.getD {}).timeoutMs)
      ((opts.getD {}).factor.getD 2) ((r : ℕ) : Int) k E 0 (r + 1 - k)
      ((opts.getD {}).delayMs.getD 100) (by omega)
      (fun i hi => by rw [Nat.zero_add]; exact hfail i (by omega))
      (fun i hi => by
        rw [hsome]
        simp only [cbRun]
        rw [Nat.zero_add]
        exact hcbok i hi)]
  rw [Nat.zero_add,
    retryAux_throw_of_pos fn ((opts.getD {}).onRetry) ((opts.getD {}).timeoutMs)
      ((opts.getD {}).factor.getD 2) ((r : ℕ) : Int) (r + 1 - k) k
      (iterDelay ((opts.getD {}).delayMs.getD 100) ((opts.getD {}).factor.getD 2) k)
      (E k) e2 (by omega) (by omega) (hfail k (le_refl k))
      (by rw [hsome]; simp only [cbRun]; exact hthrow)]
  refine ⟨by dsimp only, by dsimp only, ?_, ?_⟩
  · dsimp only
    simp
  · dsimp only
    rw [hsome]
    simp [cbLogs, cbLog, List.range_succ, Nat.zero_add]

/-- Witness for claim C6: the callback throws `.user 99` on the very first
failure; the call rejects with `.user 99` after a single factory
invocation, no sleep, and one callback invocation. -/
theorem onRetry_throw_propagates_witness :
    (retry fnFail optsThrow).result = .failure (.user 99) ∧
      (retry fnFail optsThrow).fnCalls = 1 ∧
      (retry fnFail optsThrow).sleeps.length = 0 ∧
      (retry fnFail optsThrow).onRetryCalls = [(.user 7, 1)] := by
  obtain ⟨h1, h2, h3, h4⟩ := onRetry_throw_propagates fnFail optsThrow 3 0
    (by omega) cbThrow (fun _ => .user 7) (.user 99) rfl rfl
    (fun i _ => rfl) (fun i hi => absurd hi (Nat.not_lt_zero i)) rfl
  refine ⟨h1, h2, h3, ?_⟩
  rw [h4]
  decide

/-- Claim C3 (counterexample): with `delayMs = 5`, `factor = 11/10` and an
always-failing operation, the delay `retry` sleeps before retry 3 is 5
(`floor(floor(5 * 11/10) * 11/10) = 5`), while the closed form
`floor(5 * (11/10)^2) = floor(6.05)` asserted by the claim is 6. -/
theorem backoff_closed_form_false :
    (retry fnFail optsC3).sleeps[2]? = some 5 ∧
      specDelay 5 (11 / 10) 3 = 6 ∧
      ¬ ((retry fnFail optsC3).sleeps[2]? =
          some ((specDelay 5 (11 / 10) 3 : Int) : ℚ)) := by
  with_unfolding_all decide

/-- When the operation settles strictly after the timer duration (or never
settles), the timer wins the race and the attempt's outcome is the
synthetic rejection `new Error('timeout')`. -/
theorem withTimeout_fires {ε α : Type} (p : TimedPromise ε α) (t : ℚ)
    (h : ∀ s, p.settleTime = some s → t < s) :
    (withTimeout p (some t)).result = .err (.errorMsg "timeout") := by
  cases hs : p.settleTime with
  | none => simp [withTimeout, withTimeoutT, hs]
  | some s => simp [withTimeout, withTimeoutT, hs, not_le.mpr (h s hs)]

/-- Claim C4 (counterexample): with an operation that resolves with `5` at
time 10, `timeoutMs = 0` makes the attempt fail with the timeout error,
while omitting `timeoutMs` lets it succeed — a timeout of zero does not
disable the per-attempt bound and is not identical to omitting it. -/
theorem timeout_zero_not_disabled :
    (retry fnOkLate (some { retries := some 0, timeoutMs := some 0 })).result =
        .failure (.errorMsg "timeout") ∧
      (retry fnOkLate (some { retries := some 0 })).result = .success 5 := by
  with_unfolding_all decide

/-- Claim C4 (amended): only a missing `timeoutMs` (`undefined`/`null`,
i.e. `ms == null`) disables the per-attempt bound, with `withTimeout`
returning the operation's promise unchanged; `timeoutMs = 0` instead arms a
timer of duration 0, so an attempt whose operation settles at a strictly
positive time (or never) fails with the timeout error. -/
theorem timeout_missing_disables {ε α : Type} (p : TimedPromise ε α)
    (h : ∀ s, p.settleTime = some s → 0 < s) :
    withTimeout p none = p ∧
      (withTimeout p (some 0)).result = .err (.errorMsg "timeout") :=
  ⟨rfl, withTimeout_fires p 0 h⟩

/-- Witness for claim C4 (amended), at the operation resolving with `5` at
time 10. -/
theorem timeout_missing_disables_witness :
    withTimeout (⟨some 10, .ok 5⟩ : TimedPromise ℕ ℕ) none = ⟨some 10, .ok 5⟩ ∧
      (withTimeout (⟨some 10, .ok 5⟩ : TimedPromise ℕ ℕ) (some 0)).result =
        .err (.errorMsg "timeout") :=
  timeout_missing_disables ⟨some 10, .ok 5⟩ (fun s hs => by
    simp only [Option.some.injEq] at hs
    rw [← hs]
    norm_num)

/-- Claim C5 (counterexample): an operation rejection that is itself
`new Error('timeout')` (settling at time 1, before the 50ms timer) surfaces
as exactly the same error value as a fired timeout (operation that never
settles): the synthetic timeout error carries no distinct kind or tag and
cannot be told apart from an attempt failure except by its message
string. -/
theorem timeout_error_untagged :
    (withTimeout (⟨some 1, .err (.errorMsg "timeout")⟩ : TimedPromise ℕ ℕ)
        (some 50)).result =
      (withTimeout (⟨none, .ok 0⟩ : TimedPromise ℕ ℕ) (some 50)).result := by
  with_unfolding_all decide

/-- Claim C5 (amended): when the per-attempt timer fires, the attempt fails
with `new Error('timeout')` — a plain `Error` identified only by its
message string, with no distinct kind or tag. -/
theorem timeout_error_plain_message {ε α : Type} (p : TimedPromise ε α) (t : ℚ)
    (h : ∀ s, p.settleTime = some s → t < s) :
    (withTimeout p (some t)).result = .err (.errorMsg "timeout") :=
  withTimeout_fires p t h

/-- Witness for claim C5 (amended): an operation that never settles, raced
against a 50ms timer, fails with the plain timeout error. -/
theorem timeout_error_plain_message_witness :
    (withTimeout (⟨none, .err (.user 0)⟩ : TimedPromise ℕ ℕ) (some 50)).result =
      .err (.errorMsg "timeout") :=
  timeout_error_plain_message ⟨none, .err (.user 0)⟩ 50 (fun s hs => by simp at hs)

/-- Claim C7: with an effective `retries = r ≥ 0` and a callback that does
not throw, every `retry` call ends on some attempt `k ≤ r` after exactly
`k + 1` factory invocations, and exactly one of two outcomes occurs: the
value of attempt `k`'s success is returned, or `k = r` (the final allowed
attempt) and attempt `k`'s error is the rejection.  The result is always
the outcome of an actual attempt, so the defensive post-loop
`new Error('retry failed')` branch is never the source of the result. -/
theorem retry_outcome_dichotomy {ε α : Type}
    (fn : ℕ → TimedPromise ε α) (opts : Option (Opts ε)) (r : ℕ)
    (hr : (opts.getD {}).retries.getD 3 = (r : Int))
    (hcb : ∀ cb, (opts.getD {}).onRetry = some cb → ∀ e n, cb e n = none) :
    ∃ k : ℕ, k ≤ r ∧ (retry fn opts).fnCalls = k + 1 ∧
      ((∃ v, attemptOut fn (opts.getD {}).timeoutMs k = .ok v ∧
          (retry fn opts).result = .success v) ∨
       (∃ e, attemptOut fn (opts.getD {}).timeoutMs k = .err e ∧
          (retry fn opts).result = .failure e ∧ k = r)) := by
  have hcb2 := cbRun_none_of_total _ hcb
  rw [retry_unfold fn opts r hr]
  obtain ⟨k, hk0, hk1, hk2, hk3⟩ := retryAux_outcome fn ((opts.getD {}).onRetry)
    ((opts.getD {}).timeoutMs) ((opts.getD {}).factor.getD 2) ((r : ℕ) : Int)
    hcb2 (r + 1) 0 ((opts.getD {}).delayMs.getD 100) (by omega) (by omega)
  refine ⟨k, by omega, ?_, ?_⟩
  · rw [hk2]
    omega
  · cases hk3 with
    | inl h => exact Or.inl h
    | inr h =>
      obtain ⟨e, he1, he2, he3⟩ := h
      exact Or.inr ⟨e, he1, he2, by omega⟩

/-- Witness for claim C7: the fail-twice operation under `retries = 2`
ends on some attempt `k ≤ 2` with one of the two outcomes (here: success on
attempt 2). -/
theorem retry_outcome_dichotomy_witness :
    ∃ k : ℕ, k ≤ 2 ∧ (retry fnFailTwice optsA).fnCalls = k + 1 ∧
      ((∃ v, attemptOut fnFailTwice (optsA.getD {}).timeoutMs k = .ok v ∧
          (retry fnFailTwice optsA).result = .success v) ∨
       (∃ e, attemptOut fnFailTwice (optsA.getD {}).timeoutMs k = .err e ∧
          (retry fnFailTwice optsA).result = .failure e ∧ k = 2)) :=
  retry_outcome_dichotomy fnFailTwice optsA 2 rfl (fun cb h => by cases h)

/-- Claim C8: calling `retry` with no options argument (or an empty options
object) behaves identically — same attempts, delays, callback calls and
result — to passing `{retries: 3, delayMs: 100, factor: 2}` explicitly. -/
theorem retry_defaults_config_eq {ε α : Type} (fn : ℕ → TimedPromise ε α) :
    retry fn none = retry fn (some {}) ∧
      retry fn none =
        retry fn (some { retries := some 3, delayMs := some 100, factor := some 2 }) :=
  ⟨rfl, rfl⟩

/-- Claim C9 (counterexample): in a race that is decided (operation resolves
at time 1, well before the 50ms timer), the number of timers cleared (0)
does not equal the number of timers created (1): the losing timer is not
cleared. -/
theorem timeout_timer_not_cleared :
    ¬ ((withTimeoutT (⟨some 1, .ok 0⟩ : TimedPromise ℕ ℕ) (some 50)).2.timersCleared =
        (withTimeoutT (⟨some 1, .ok 0⟩ : TimedPromise ℕ ℕ) (some 50)).2.timersCreated) := by
  with_unfolding_all decide

/-- Claim C9 (amended): `withTimeout` contains no `clearTimeout` at all — in
every race it clears zero timers, while creating exactly one whenever a
timeout is configured; the timer remains scheduled after the race is
decided, on winning and losing branches alike, until it fires on its
own. -/
theorem timeout_timer_never_cleared {ε α : Type} (p : TimedPromise ε α)
    (ms : Option ℚ) :
    (withTimeoutT p ms).2.timersCleared = 0 ∧
      (withTimeoutT p ms).2.timersCreated = if ms.isSome then 1 else 0 := by
  cases ms <;> simp [withTimeoutT]

/-- Claim C10: if the effective `retries` is negative, the loop guard
`attempt <= retries` is false at entry, so `retry` never invokes the
operation factory, never invokes `onRetry`, performs no sleep, and rejects
with the generic post-loop `new Error('retry failed')` — no validation or
clamping happens at the boundary. -/
theorem negative_retries_rejects_without_attempt {ε α : Type}
    (fn : ℕ → TimedPromise ε α) (opts : Option (Opts ε)) (r : Int)
    (hr : (opts.getD {}).retries.getD 3 = r) (hneg : r < 0) :
    retry fn opts = ⟨.failure (.errorMsg "retry failed"), 0, [], []⟩ := by
  simp only [retry, hr]
  rw [show (r + 1).toNat = 0 by omega, retryAux]

/-- Witness for claim C10: with `retries = -1`, the call makes no attempt,
no callback call, no sleep, and rejects with `new Error('retry failed')`. -/
theorem negative_retries_rejects_without_attempt_witness :
    retry fnFail optsNeg = ⟨.failure (.errorMsg "retry failed"), 0, [], []⟩ :=
  negative_retries_rejects_without_attempt fnFail optsNeg (-1) rfl (by decide)
